import Mathlib

/-!
Verification of the alarm-state and tiled-layout render cycle of the
rust-world-clock repository (src/main.rs, src/tui.rs, src/gui.rs).

The Rust code is shallowly embedded: pure per-tick logic becomes Lean
functions, the mutable dismissal state is threaded explicitly, and the
external collaborators (the terminal layout solver, the zone database,
the string parsers of the chrono crate) are modelled by parameters or by
the partition rule the specification documents for them.
-/

namespace WorldClock

/-- Embeds the `NaiveTime` of chrono as used by the program: hour, minute,
second fields (`Timelike` accessors `.hour()`, `.minute()`). -/
structure NaiveTime where
  hour : Nat
  minute : Nat
  second : Nat
deriving DecidableEq

/-- Embeds `src/main.rs` lines 204-208 (`run_app`, identically
`run_app_loop` in `src/tui.rs` lines 50-54): the per-tick clearing step.
If a dismissal exists and its hour or minute differs from the current
local time, it is reset to `None`. -/
def clearStale (now : NaiveTime) (dismissed : Option NaiveTime) : Option NaiveTime :=
  match dismissed with
  | some d => if now.hour ≠ d.hour ∨ now.minute ≠ d.minute then none else some d
  | none => none

/-- Embeds the alarm comparison of `src/main.rs` lines 210-211: some alarm
whose hour and minute equal those of the local time (seconds are
never consulted). -/
def alarmMatch (now : NaiveTime) (alarms : List NaiveTime) : Bool :=
  alarms.any (fun a => now.hour == a.hour && now.minute == a.minute)

/-- Embeds `is_alarm_active` of `src/main.rs` lines 210-212: the alarm
match conjoined with `dismissed_time.is_none()`. -/
def isAlarmActive (now : NaiveTime) (alarms : List NaiveTime) (dismissed : Option NaiveTime) : Bool :=
  alarmMatch now alarms && dismissed.isNone

/-- Abstract input signal consumed once per tick (`src/main.rs` lines
216-231): quit key, dismiss key (space or d), or poll timeout. -/
inductive InputSignal where
  | quit
  | dismiss
  | noInput
deriving DecidableEq

/-- Embeds one iteration of the `run_app` loop of `src/main.rs` lines
200-232 as a state transformer on the dismissal state: clear a stale
dismissal, evaluate `is_alarm_active`, then on a dismiss keypress record
the current (hour, minute) with seconds zero -- but only while the alarm
is active (`if is_alarm_active` guard, lines 222-226).  Returns the
active flag passed to `ui` and the dismissal state carried to the next
tick.  The quit key exits the loop and leaves the state untouched. -/
def tickStep (now : NaiveTime) (alarms : List NaiveTime) (dismissed : Option NaiveTime)
    (inp : InputSignal) : Bool × Option NaiveTime :=
  let d1 := clearStale now dismissed
  let active := isAlarmActive now alarms d1
  let d2 :=
    match inp with
    | InputSignal.dismiss => if active then some ⟨now.hour, now.minute, 0⟩ else d1
    | _ => d1
  (active, d2)

/-- Embeds `ratatui::layout::Rect`: an axis-aligned rectangle given by its
top-left corner and size, in character cells.  The source stores `u16`
coordinates; the layout arithmetic of the program stays far below `2^16`,
so the embedding uses `Nat`. -/
structure Rect where
  x : Nat
  y : Nat
  width : Nat
  height : Nat
deriving DecidableEq

instance : Inhabited Rect := ⟨⟨0, 0, 0, 0⟩⟩

/-- Containment of `inner` in `outer`, both read as half-open cell ranges
`[x, x+width) x [y, y+height)`. -/
def Rect.contains (outer inner : Rect) : Prop :=
  outer.x ≤ inner.x ∧ inner.x + inner.width ≤ outer.x + outer.width ∧
  outer.y ≤ inner.y ∧ inner.y + inner.height ≤ outer.y + outer.height

/-- Overlap of two rectangles: a cell lies in both, i.e. both half-open
ranges intersect on each axis. -/
def Rect.overlaps (a b : Rect) : Prop :=
  a.x < b.x + b.width ∧ b.x < a.x + a.width ∧
  a.y < b.y + b.height ∧ b.y < a.y + a.height

/-- Embeds the vertical `Layout` split of `src/main.rs` lines 248-255:
`Constraint::Ratio(1, rows)` repeated `rows` times partitions the canvas
into `rows` horizontal bands; per the documented partition rule each band
receives `height / rows` cells and the last band absorbs the rounding
remainder. -/
def splitVert (r : Rect) (k : Nat) : List Rect :=
  (List.range k).map fun i =>
    if i + 1 = k then
      ⟨r.x, r.y + i * (r.height / k), r.width, r.height - i * (r.height / k)⟩
    else
      ⟨r.x, r.y + i * (r.height / k), r.width, r.height / k⟩

/-- Embeds the horizontal `Layout` split of `src/main.rs` lines 265-272:
`Constraint::Ratio(1, cols)` repeated `cols` times partitions one band
into `cols` cells, the last cell absorbing the remainder. -/
def splitHorz (r : Rect) (k : Nat) : List Rect :=
  (List.range k).map fun i =>
    if i + 1 = k then
      ⟨r.x + i * (r.width / k), r.y, r.width - i * (r.width / k), r.height⟩
    else
      ⟨r.x + i * (r.width / k), r.y, r.width / k, r.height⟩

/-- Embeds `(clock_count as f64).sqrt().ceil() as usize` of `src/main.rs`
line 245 as the exact ceiling of the square root: the least k with
n ≤ k * k (the `f64` computation is exact for every realistic clock
count; see ceilSqrt_spec for the characterizing property). -/
def ceilSqrt (n : Nat) : Nat :=
  ((List.range (n + 1)).filter (fun k => n ≤ k * k)).headD n

/-- Embeds `cols` of `src/main.rs` line 245. -/
def gridCols (count : Nat) : Nat := ceilSqrt count

/-- Embeds `rows = (clock_count as f64 / cols as f64).ceil() as usize` of
`src/main.rs` line 246, as the exact ceiling division. -/
def gridRows (count : Nat) : Nat := (count + gridCols count - 1) / gridCols count

/-- Rectangle of clock index `i`: cell `i % cols` of band `i / cols`, as
read off `src/main.rs` lines 258-278 (`row = i / cols; col = i % cols`,
band list indexed by `row`, band re-split indexed by `col`). -/
def cellAt (chunks : List Rect) (cols i : Nat) : Rect :=
  (splitHorz (chunks.getD (i / cols) default) cols).getD (i % cols) default

/-- Embeds the placement loop of `src/main.rs` lines 257-278: walk the
clock indices, guard `row >= chunks.len()` / `col >= row_chunks.len()`
with `break` (lines 261-263, 274-276), and assign each surviving index
the rectangle of its band and cell.  `fuel` is the number of clocks still
to place; `i` is the current index. -/
def placeLoop (chunks : List Rect) (cols : Nat) : Nat → Nat → List Rect
  | _, 0 => []
  | i, fuel + 1 =>
    if hrow : i / cols < chunks.length then
      if hcol : i % cols < (splitHorz (chunks.get ⟨i / cols, hrow⟩) cols).length then
        (splitHorz (chunks.get ⟨i / cols, hrow⟩) cols).get ⟨i % cols, hcol⟩ ::
          placeLoop chunks cols (i + 1) fuel
      else []
    else []

/-- Embeds the grid computation of `ui` in `src/main.rs` lines 235-278
(identically `src/tui.rs` lines 81-124): early return on zero clocks
(lines 239-241), otherwise the near-square grid of one rectangle per
clock. -/
def computeGrid (count : Nat) (canvas : Rect) : List Rect :=
  if count = 0 then []
  else placeLoop (splitVert canvas (gridRows count)) (gridCols count) 0 count

/-- Embeds `Clock` of `src/main.rs` lines 35-38.  The `chrono_tz::Tz`
zone rule is modelled as a fixed offset in seconds: `with_timezone`
shifts the shared universal instant by the offset of the zone. -/
structure Clock where
  name : String
  timezone : Int
deriving DecidableEq

instance : Inhabited Clock := ⟨⟨"", 0⟩⟩

/-- Seconds-of-day displayed by `time.format("%H:%M:%S")` for the
universal instant `t` (seconds since the epoch) under zone offset
`tz`. -/
def zoneSecondsOfDay (t tz : Int) : Int := (t + tz).emod 86400

/-- Day index displayed by `time.format("%Y-%m-%d")` for instant `t`
under zone offset `tz`. -/
def zoneDay (t tz : Int) : Int := (t + tz).fdiv 86400

/-- One render unit emitted per clock by `ui` in `src/main.rs` lines
278-336: its rectangle, label, displayed time and date, and the border
highlight (red iff the alarm flag is set, lines 325-329). -/
structure RenderUnit where
  rect : Rect
  label : String
  timeSec : Int
  dateDay : Int
  highlight : Bool
deriving DecidableEq

instance : Inhabited RenderUnit := ⟨⟨default, "", 0, 0, false⟩⟩

/-- Embeds the clock loop of `ui` (`src/main.rs` lines 257-337).
`sample k` is the instant returned by the k-th call of `Utc::now()`
within the frame: the source calls `Utc::now()` once per clock, inside
the loop (line 280).  The border colour of every block is driven by the one
`is_alarm_active` flag. -/
def uiLoop (chunks : List Rect) (cols : Nat) (sample : Nat → Int) (active : Bool) :
    List Clock → Nat → List RenderUnit
  | [], _ => []
  | c :: rest, i =>
    if hrow : i / cols < chunks.length then
      if hcol : i % cols < (splitHorz (chunks.get ⟨i / cols, hrow⟩) cols).length then
        ⟨(splitHorz (chunks.get ⟨i / cols, hrow⟩) cols).get ⟨i % cols, hcol⟩,
         c.name, zoneSecondsOfDay (sample i) c.timezone, zoneDay (sample i) c.timezone,
         active⟩ :: uiLoop chunks cols sample active rest (i + 1)
      else []
    else []

/-- Embeds `ui` of `src/main.rs` lines 235-338 (identically `src/tui.rs`
lines 81-184): nothing is rendered for zero clocks (lines 239-241),
otherwise one render unit per clock over the computed grid. -/
def uiRender (canvas : Rect) (clocks : List Clock) (sample : Nat → Int) (active : Bool) :
    List RenderUnit :=
  if clocks.length = 0 then []
  else uiLoop (splitVert canvas (gridRows clocks.length)) (gridCols clocks.length)
    sample active clocks 0

/-- Embeds `WorldClockApp` of `src/gui.rs` lines 17-21: the complete
application state of the windowed variant, namely clocks, alarms and the
last sampled local time.  The structure carries no dismissal field. -/
structure WorldClockApp where
  clocks : List Clock
  alarms : List NaiveTime
  local_time : NaiveTime

/-- Embeds `Message` of `src/gui.rs` lines 23-26: the only message of the
windowed variant is the timer tick carrying a fresh local time. -/
inductive GuiMessage where
  | tick (t : NaiveTime)

/-- Embeds `update` of `src/gui.rs` lines 49-56: a tick stores the new
local time and changes nothing else. -/
def guiUpdate (app : WorldClockApp) : GuiMessage → WorldClockApp
  | GuiMessage.tick t => ⟨app.clocks, app.alarms, t⟩

/-- Embeds `is_alarm_active` of `view` in `src/gui.rs` lines 59-61:
minute-granular match of the stored local time against the alarm set,
with no dismissal consulted. -/
def guiIsAlarmActive (app : WorldClockApp) : Bool :=
  app.alarms.any
    (fun a => app.local_time.hour == a.hour && app.local_time.minute == a.minute)

/-- One container emitted per clock by `view` in `src/gui.rs` lines
63-89: label, time, date, and the highlighted style (Box iff the alarm
flag is set). -/
structure GuiUnit where
  label : String
  timeSec : Int
  dateDay : Int
  highlight : Bool
deriving DecidableEq

instance : Inhabited GuiUnit := ⟨⟨"", 0, 0, false⟩⟩

/-- Embeds the clock iteration of `view` (`src/gui.rs` lines 63-89);
as in the terminal variant, `Utc::now()` is called once per clock
(line 64), so `sample k` is the k-th sampled instant. -/
def guiViewLoop (sample : Nat → Int) (active : Bool) : List Clock → Nat → List GuiUnit
  | [], _ => []
  | c :: rest, i =>
    ⟨c.name, zoneSecondsOfDay (sample i) c.timezone, zoneDay (sample i) c.timezone,
     active⟩ :: guiViewLoop sample active rest (i + 1)

/-- Embeds `view` of `src/gui.rs` lines 58-100. -/
def guiView (app : WorldClockApp) (sample : Nat → Int) : List GuiUnit :=
  guiViewLoop sample (guiIsAlarmActive app) app.clocks 0

/-- Outcome of `main` (`src/main.rs` lines 100-192) up to the render
cycle: an early `return Ok(())` after printing a diagnostic on standard
error (the process exit code of an `Ok` return is 0), or entry into the
render cycle with the parsed clocks and alarms. -/
inductive MainOutcome where
  | earlyExit (stderrDiagnostic : String) (exitCode : Nat)
  | enterRenderCycle (clocks : List Clock) (alarms : List NaiveTime)

/-- Embeds the CLI alarm loop of `src/main.rs` lines 107-115: parse each
HH:MM string with `NaiveTime::parse_from_str` (modelled by the external
parser parameter `parseAlarm`), stopping at the first failure with the
`Invalid alarm format` diagnostic. -/
def parseAlarmsCLI (parseAlarm : String → Option NaiveTime) :
    List String → Except String (List NaiveTime)
  | [] => Except.ok []
  | s :: rest =>
    match parseAlarm s with
    | some t => (parseAlarmsCLI parseAlarm rest).map (fun l => t :: l)
    | none => Except.error ("Invalid alarm format: " ++ s)

/-- Embeds the zone loop of `src/main.rs` lines 154-167: parse each zone
identifier with `str::parse::<Tz>` (modelled by the external parser
parameter `parseTz`), stopping at the first failure with the
`Invalid time zone` diagnostic. -/
def parseZonesList (parseTz : String → Option Int) :
    List String → Except String (List Clock)
  | [] => Except.ok []
  | s :: rest =>
    match parseTz s with
    | some tz => (parseZonesList parseTz rest).map (fun l => ⟨s, tz⟩ :: l)
    | none => Except.error ("Invalid time zone: " ++ s)

/-- Zone identifiers `main` iterates over: the CLI list if nonempty, else
the stored configuration list, else the built-in default after the
explanatory delay (`src/main.rs` lines 128-152). -/
def effectiveZones (argZones storedZones : List String) : List String :=
  let zs := if argZones ≠ [] then argZones else storedZones
  if zs = [] then ["Europe/London"] else zs

/-- Embeds the startup phase of `main` (`src/main.rs` lines 100-177):
alarm handling (CLI parse with early exit on failure, else stored alarms
filtered through the same parser, lines 85-98 and 119), zone selection,
zone parsing with early exit on failure, then entry into `run_app`.
Configuration persistence is best-effort I/O and does not affect the
outcome. -/
def mainStartup (parseAlarm : String → Option NaiveTime) (parseTz : String → Option Int)
    (argZones argAlarms storedAlarms storedZones : List String) : MainOutcome :=
  match (if argAlarms ≠ [] then parseAlarmsCLI parseAlarm argAlarms
         else Except.ok (storedAlarms.filterMap parseAlarm)) with
  | Except.error msg => MainOutcome.earlyExit msg 0
  | Except.ok alarms =>
    match parseZonesList parseTz (effectiveZones argZones storedZones) with
    | Except.error msg => MainOutcome.earlyExit msg 0
    | Except.ok clocks => MainOutcome.enterRenderCycle clocks alarms

end WorldClock

namespace WorldClock

/-- Both splits produce exactly `k` rectangles. -/
theorem length_splitVert (r : Rect) (k : Nat) : (splitVert r k).length = k := by
  simp [splitVert]

/-- Horizontal analogue of length_splitVert. -/
theorem length_splitHorz (r : Rect) (k : Nat) : (splitHorz r k).length = k := by
  simp [splitHorz]

/-- Reading a mapped range list at an in-bounds index. -/
theorem getD_map_range {α : Type} (f : Nat → α) (d : α) {b k : Nat} (hb : b < k) :
    ((List.range k).map f).getD b d = f b := by
  simp [List.getD_eq_getElem?_getD, List.getElem?_map, List.getElem?_range hb]

/-- Band `b` of a vertical split, in closed form. -/
theorem splitVert_getD (r : Rect) {k b : Nat} (hb : b < k) :
    (splitVert r k).getD b default =
      ⟨r.x, r.y + b * (r.height / k), r.width,
        if b + 1 = k then r.height - b * (r.height / k) else r.height / k⟩ := by
  unfold splitVert
  rw [getD_map_range _ _ hb]
  split <;> rfl

/-- Cell `c` of a horizontal split, in closed form. -/
theorem splitHorz_getD (r : Rect) {k c : Nat} (hc : c < k) :
    (splitHorz r k).getD c default =
      ⟨r.x + c * (r.width / k), r.y,
        if c + 1 = k then r.width - c * (r.width / k) else r.width / k,
        r.height⟩ := by
  unfold splitHorz
  rw [getD_map_range _ _ hc]
  split <;> rfl

/-- Closed form of the rectangle of clock `i` over a vertically split
canvas. -/
theorem cellAt_eq (canvas : Rect) {rows cols i : Nat} (hc : 0 < cols)
    (hb : i / cols < rows) :
    cellAt (splitVert canvas rows) cols i =
      ⟨canvas.x + (i % cols) * (canvas.width / cols),
       canvas.y + (i / cols) * (canvas.height / rows),
       if i % cols + 1 = cols then canvas.width - (i % cols) * (canvas.width / cols)
       else canvas.width / cols,
       if i / cols + 1 = rows then canvas.height - (i / cols) * (canvas.height / rows)
       else canvas.height / rows⟩ := by
  have hm : i % cols < cols := Nat.mod_lt _ hc
  unfold cellAt
  rw [splitVert_getD canvas hb, splitHorz_getD _ hm]

/-- Every cell rectangle lies within the canvas. -/
theorem canvas_contains_cellAt (canvas : Rect) {rows cols i : Nat} (hc : 0 < cols)
    (hb : i / cols < rows) :
    canvas.contains (cellAt (splitVert canvas rows) cols i) := by
  rw [cellAt_eq canvas hc hb]
  have hkq : rows * (canvas.height / rows) ≤ canvas.height := by
    rw [Nat.mul_comm]; exact Nat.div_mul_le_self _ _
  have hkp : cols * (canvas.width / cols) ≤ canvas.width := by
    rw [Nat.mul_comm]; exact Nat.div_mul_le_self _ _
  have h1 : (i / cols) * (canvas.height / rows) ≤ rows * (canvas.height / rows) :=
    Nat.mul_le_mul_right _ (le_of_lt hb)
  have h2 : (i / cols + 1) * (canvas.height / rows) ≤ rows * (canvas.height / rows) :=
    Nat.mul_le_mul_right _ hb
  have h3 : (i % cols) * (canvas.width / cols) ≤ cols * (canvas.width / cols) :=
    Nat.mul_le_mul_right _ (le_of_lt (Nat.mod_lt _ hc))
  have h4 : (i % cols + 1) * (canvas.width / cols) ≤ cols * (canvas.width / cols) :=
    Nat.mul_le_mul_right _ (Nat.mod_lt _ hc)
  have e1 : (i / cols + 1) * (canvas.height / rows) =
      (i / cols) * (canvas.height / rows) + canvas.height / rows := by ring
  have e2 : (i % cols + 1) * (canvas.width / cols) =
      (i % cols) * (canvas.width / cols) + canvas.width / cols := by ring
  refine ⟨?_, ?_, ?_, ?_⟩ <;> dsimp only <;> (try split_ifs) <;> omega

/-- Rectangles of two distinct clock indices do not overlap: indices in
different bands are separated vertically, indices in the same band sit in
distinct cells separated horizontally. -/
theorem cellAt_disjoint (canvas : Rect) {rows cols n i j : Nat} (hc : 0 < cols)
    (hn : n ≤ cols * rows) (hij : i < j) (hjn : j < n) :
    ¬ (cellAt (splitVert canvas rows) cols i).overlaps
        (cellAt (splitVert canvas rows) cols j) := by
  have hbj : j / cols < rows := by
    rw [Nat.div_lt_iff_lt_mul hc]
    have := Nat.mul_comm cols rows
    omega
  have hbi : i / cols < rows :=
    lt_of_le_of_lt (Nat.div_le_div_right (le_of_lt hij)) hbj
  rcases Nat.lt_or_ge (i / cols) (j / cols) with hlt | hge
  · -- different bands: vertical separation
    have hinotlast : ¬ i / cols + 1 = rows := by omega
    rw [cellAt_eq canvas hc hbi, cellAt_eq canvas hc hbj]
    intro hov
    have h4 := hov.2.2.2
    dsimp only at h4
    rw [if_neg hinotlast] at h4
    have e : (i / cols + 1) * (canvas.height / rows) =
        (i / cols) * (canvas.height / rows) + canvas.height / rows := by ring
    have mono : (i / cols + 1) * (canvas.height / rows) ≤
        (j / cols) * (canvas.height / rows) :=
      Nat.mul_le_mul_right _ hlt
    omega
  · -- same band: distinct cells, horizontal separation
    have heq : i / cols = j / cols :=
      le_antisymm (Nat.div_le_div_right (le_of_lt hij)) hge
    have hmod : i % cols < j % cols := by
      have di := Nat.div_add_mod i cols
      have dj := Nat.div_add_mod j cols
      rw [heq] at di
      omega
    have hjm : j % cols < cols := Nat.mod_lt _ hc
    have hmnotlast : ¬ i % cols + 1 = cols := by omega
    rw [cellAt_eq canvas hc hbi, cellAt_eq canvas hc hbj]
    intro hov
    have h2 := hov.2.1
    dsimp only at h2
    rw [if_neg hmnotlast] at h2
    have e : (i % cols + 1) * (canvas.width / cols) =
        (i % cols) * (canvas.width / cols) + canvas.width / cols := by ring
    have mono : (i % cols + 1) * (canvas.width / cols) ≤
        (j % cols) * (canvas.width / cols) :=
      Nat.mul_le_mul_right _ hmod
    omega

/-- Reading a list at an in-bounds index with a default value gives the
indexed element. -/
theorem getD_of_lt {α : Type} (l : List α) (d : α) {m : Nat} (hm : m < l.length) :
    l.getD m d = l.get ⟨m, hm⟩ := by
  simp [List.getD_eq_getElem?_getD, List.getElem?_eq_getElem hm]

/-- Head of a filtered range satisfies the predicate and is minimal. -/
theorem head_filter_range_min {p : Nat → Bool} {m a : Nat} {t : List Nat}
    (h : (List.range m).filter p = a :: t) :
    p a = true ∧ ∀ j, j < a → p j = true → False := by
  have hmem : a ∈ (List.range m).filter p := by
    rw [h]; exact List.mem_cons_self a t
  have hpa := (List.mem_filter.1 hmem).2
  refine ⟨hpa, ?_⟩
  intro j hj hpj
  have hjm : j < m := by
    have ham := List.mem_range.1 (List.mem_filter.1 hmem).1
    omega
  have hjmem : j ∈ (List.range m).filter p :=
    List.mem_filter.2 ⟨List.mem_range.2 hjm, hpj⟩
  have hsort : ((List.range m).filter p).Pairwise (fun x y => x < y) :=
    List.Pairwise.filter p (List.pairwise_lt_range m)
  rw [h] at hjmem hsort
  rcases List.mem_cons.1 hjmem with rfl | hmem2
  · omega
  · have := (List.pairwise_cons.1 hsort).1 j hmem2
    omega

/-- ceilSqrt n is the ceiling of the square root of n: its square reaches
n and the square of everything below it falls short of n. -/
theorem ceilSqrt_spec (n : Nat) :
    n ≤ ceilSqrt n * ceilSqrt n ∧ ∀ j, j < ceilSqrt n → j * j < n := by
  unfold ceilSqrt
  cases hl : (List.range (n + 1)).filter (fun k => decide (n ≤ k * k)) with
  | nil =>
    exfalso
    have hn : n ∈ (List.range (n + 1)).filter (fun k => decide (n ≤ k * k)) :=
      List.mem_filter.2 ⟨List.mem_range.2 (by omega), by simpa using Nat.le_mul_self n⟩
    rw [hl] at hn
    simp at hn
  | cons a t =>
    have hmin := head_filter_range_min hl
    have hpa : n ≤ a * a := by simpa using hmin.1
    refine ⟨by simpa using hpa, ?_⟩
    intro j hj
    simp only [List.headD_cons] at hj
    have := hmin.2 j hj
    by_contra hge
    exact this (by simpa using Nat.le_of_not_lt hge)

/-- The grid has a positive column count for at least one clock. -/
theorem gridCols_pos {n : Nat} (hn : 1 ≤ n) : 0 < gridCols n := by
  have h := (ceilSqrt_spec n).1
  show 0 < ceilSqrt n
  rcases Nat.eq_zero_or_pos (ceilSqrt n) with he | hp
  · rw [he] at h
    omega
  · exact hp

/-- The column and row counts cover all clocks: `n ≤ cols * rows`. -/
theorem gridRows_mul {n : Nat} (hn : 1 ≤ n) : n ≤ gridCols n * gridRows n := by
  have hc := gridCols_pos hn
  have hd := Nat.div_add_mod (n + gridCols n - 1) (gridCols n)
  have hmod := Nat.mod_lt (n + gridCols n - 1) hc
  show n ≤ gridCols n * ((n + gridCols n - 1) / gridCols n)
  omega

/-- Dropping the last row loses clocks: `cols * (rows - 1) < n`. -/
theorem gridRows_pred_mul {n : Nat} (hn : 1 ≤ n) : gridCols n * (gridRows n - 1) < n := by
  have hc := gridCols_pos hn
  have hd := Nat.div_add_mod (n + gridCols n - 1) (gridCols n)
  have hmod := Nat.mod_lt (n + gridCols n - 1) hc
  show gridCols n * ((n + gridCols n - 1) / gridCols n - 1) < n
  rcases hq : (n + gridCols n - 1) / gridCols n with _ | q
  · rw [hq] at hd
    simp only [Nat.zero_sub, Nat.mul_zero]
    omega
  · rw [hq] at hd
    simp only [Nat.succ_sub_one]
    have em : gridCols n * (q + 1) = gridCols n * q + gridCols n := by ring
    omega

/-- Every clock index lands in a band below `rows`. -/
theorem index_div_lt_rows {n i : Nat} (hn : 1 ≤ n) (hi : i < n) :
    i / gridCols n < gridRows n := by
  have hc := gridCols_pos hn
  rw [Nat.div_lt_iff_lt_mul hc]
  have hmul := gridRows_mul hn
  have := Nat.mul_comm (gridCols n) (gridRows n)
  omega

/-- Closed form of the placement loop: when every index to be placed maps
to an existing band, the loop never hits its `break` guards and produces
one cell rectangle per index. -/
theorem placeLoop_eq (chunks : List Rect) (cols : Nat) (hc : 0 < cols) :
    ∀ (fuel i : Nat), (∀ m, m < fuel → (i + m) / cols < chunks.length) →
      placeLoop chunks cols i fuel =
        (List.range fuel).map (fun m => cellAt chunks cols (i + m)) := by
  intro fuel
  induction fuel with
  | zero => intro i _; rfl
  | succ f ih =>
    intro i h
    have h0 : i / cols < chunks.length := by
      have := h 0 (Nat.succ_pos f)
      simpa using this
    have hm : i % cols < (splitHorz (chunks.get ⟨i / cols, h0⟩) cols).length := by
      rw [length_splitHorz]
      exact Nat.mod_lt _ hc
    have hrec : ∀ m, m < f → (i + 1 + m) / cols < chunks.length := by
      intro m hmf
      have e : i + 1 + m = i + (m + 1) := by omega
      rw [e]
      exact h (m + 1) (by omega)
    have hcell : (splitHorz (chunks.get ⟨i / cols, h0⟩) cols).get ⟨i % cols, hm⟩ =
        cellAt chunks cols (i + 0) := by
      unfold cellAt
      rw [Nat.add_zero]
      rw [getD_of_lt chunks default h0]
      rw [getD_of_lt _ default (by rw [length_splitHorz]; exact Nat.mod_lt _ hc)]
    rw [placeLoop, dif_pos h0, dif_pos hm, ih (i + 1) hrec,
      List.range_succ_eq_map, List.map_cons, List.map_map, hcell]
    refine congrArg (fun t => cellAt chunks cols (i + 0) :: t) ?_
    refine List.map_congr_left ?_
    intro m _
    show cellAt chunks cols (i + 1 + m) = cellAt chunks cols (i + Nat.succ m)
    refine congrArg (cellAt chunks cols) ?_
    omega

/-- Closed form of the whole grid for a positive clock count. -/
theorem computeGrid_eq (n : Nat) (canvas : Rect) (hn : 1 ≤ n) :
    computeGrid n canvas =
      (List.range n).map
        (fun m => cellAt (splitVert canvas (gridRows n)) (gridCols n) m) := by
  have hc := gridCols_pos hn
  unfold computeGrid
  rw [if_neg (by omega)]
  rw [placeLoop_eq _ _ hc n 0 ?_]
  · refine List.map_congr_left ?_
    intro m _
    rw [Nat.zero_add]
  · intro m hm
    rw [length_splitVert, Nat.zero_add]
    exact index_div_lt_rows hn hm

/-- C4: for every clock count n the grid has exactly n rectangles, each
within the canvas, pairwise non-overlapping; for zero clocks the grid is
the empty sequence and the frame renders nothing. -/
theorem computeGrid_props (n : Nat) (canvas : Rect) :
    (computeGrid n canvas).length = n ∧
    (∀ r, r ∈ computeGrid n canvas → canvas.contains r) ∧
    List.Pairwise (fun a b => ¬ Rect.overlaps a b) (computeGrid n canvas) ∧
    computeGrid 0 canvas = [] ∧
    (∀ sample active, uiRender canvas [] sample active = []) := by
  by_cases hn : n = 0
  · subst hn
    refine ⟨by simp [computeGrid], ?_, by simp [computeGrid], rfl, fun _ _ => rfl⟩
    intro r hr
    simp [computeGrid] at hr
  · have h1 : 1 ≤ n := by omega
    have hc := gridCols_pos h1
    have hmul := gridRows_mul h1
    refine ⟨?_, ?_, ?_, rfl, fun _ _ => rfl⟩
    · rw [computeGrid_eq n canvas h1]
      simp
    · intro r hr
      rw [computeGrid_eq n canvas h1] at hr
      simp only [List.mem_map, List.mem_range] at hr
      obtain ⟨m, hm, rfl⟩ := hr
      exact canvas_contains_cellAt canvas hc (index_div_lt_rows h1 hm)
    · rw [computeGrid_eq n canvas h1, List.pairwise_iff_getElem]
      intro i j hi hj hij
      simp only [List.length_map, List.length_range] at hi hj
      simp only [List.getElem_map, List.getElem_range]
      exact cellAt_disjoint canvas hc hmul hij hj

/-- Witness for computeGrid_props: on a 20x10 canvas with two clocks, the
first rectangle of the grid lies within the canvas. -/
theorem computeGrid_props_witness :
    Rect.contains ⟨0, 0, 20, 10⟩ ((computeGrid 2 ⟨0, 0, 20, 10⟩).getD 0 default) :=
  (computeGrid_props 2 ⟨0, 0, 20, 10⟩).2.1 _ (by decide)

/-- C5: the grid dimensions are cols = ceil(sqrt(n)) and
rows = ceil(n / cols); they satisfy cols * rows >= n and
cols * (rows - 1) < n, and consequently every band of the grid receives
at least one clock. -/
theorem grid_dims (n : Nat) (hn : 1 ≤ n) :
    gridCols n = ceilSqrt n ∧
    (n ≤ gridCols n * gridCols n ∧ ∀ j, j < gridCols n → j * j < n) ∧
    gridRows n = (n + gridCols n - 1) / gridCols n ∧
    n ≤ gridCols n * gridRows n ∧
    gridCols n * (gridRows n - 1) < n ∧
    (∀ b, b < gridRows n → ∃ i, i < n ∧ i / gridCols n = b) := by
  refine ⟨rfl, ceilSqrt_spec n, rfl, gridRows_mul hn, gridRows_pred_mul hn, ?_⟩
  intro b hb
  have hc := gridCols_pos hn
  refine ⟨b * gridCols n, ?_, ?_⟩
  · have h1 : b * gridCols n ≤ (gridRows n - 1) * gridCols n :=
      Nat.mul_le_mul_right _ (by omega)
    have h2 := gridRows_pred_mul hn
    have e : (gridRows n - 1) * gridCols n = gridCols n * (gridRows n - 1) :=
      Nat.mul_comm _ _
    omega
  · exact Nat.mul_div_cancel b hc

/-- Witness for grid_dims at n = 5: 3 columns and 2 rows cover the five
clocks without an empty row. -/
theorem grid_dims_witness :
    5 ≤ gridCols 5 * gridRows 5 ∧ gridCols 5 * (gridRows 5 - 1) < 5 :=
  ⟨(grid_dims 5 (by decide)).2.2.2.1, (grid_dims 5 (by decide)).2.2.2.2.1⟩

/-- C6: clock index i is placed in cell i % cols of band i / cols; with 5
clocks cols = 3 and rows = 2, index 4 lands in band 1 cell 1, band 1
holds exactly indices 3 and 4 in cells 0 and 1, and cell 2 of band 1 is
unused. -/
theorem grid_placement :
    (∀ (n : Nat) (canvas : Rect) (i : Nat), i < n →
      (computeGrid n canvas).getD i default =
        (splitHorz ((splitVert canvas (gridRows n)).getD (i / gridCols n) default)
          (gridCols n)).getD (i % gridCols n) default) ∧
    gridCols 5 = 3 ∧ gridRows 5 = 2 ∧
    4 / gridCols 5 = 1 ∧ 4 % gridCols 5 = 1 ∧
    3 / gridCols 5 = 1 ∧ 3 % gridCols 5 = 0 ∧
    (∀ i, i < 5 → i / gridCols 5 = 1 → i = 3 ∨ i = 4) ∧
    (¬ ∃ i, i < 5 ∧ i / gridCols 5 = 1 ∧ i % gridCols 5 = 2) := by
  refine ⟨?_, by decide, by decide, by decide, by decide, by decide, by decide,
    by decide, by decide⟩
  intro n canvas i hi
  have h1 : 1 ≤ n := by omega
  rw [computeGrid_eq n canvas h1, getD_map_range _ _ hi]
  rfl

/-- Witness for grid_placement: the fifth clock of five on a 90x30 canvas
gets the rectangle of cell 1 in band 1. -/
theorem grid_placement_witness :
    (computeGrid 5 ⟨0, 0, 90, 30⟩).getD 4 default =
      (splitHorz ((splitVert ⟨0, 0, 90, 30⟩ (gridRows 5)).getD (4 / gridCols 5) default)
        (gridCols 5)).getD (4 % gridCols 5) default :=
  grid_placement.1 5 ⟨0, 0, 90, 30⟩ 4 (by decide)

/-- C1: the alarm is reported active iff the hour and minute of the local
time equal those of some alarm in the set (seconds ignored) and the dismissal
state after the per-tick clearing step is empty; for an alarm 08:30 every
local time 08:30:ss is active absent dismissal, and 08:31:00 is not. -/
theorem isAlarmActive_iff_match_and_clear :
    (∀ (now : NaiveTime) (alarms : List NaiveTime) (d : Option NaiveTime),
      isAlarmActive now alarms (clearStale now d) = true ↔
        (∃ a, a ∈ alarms ∧ now.hour = a.hour ∧ now.minute = a.minute) ∧
          clearStale now d = none) ∧
    (∀ s : Nat, isAlarmActive ⟨8, 30, s⟩ [⟨8, 30, 0⟩] none = true) ∧
    isAlarmActive ⟨8, 31, 0⟩ [⟨8, 30, 0⟩] none = false := by
  refine ⟨?_, ?_, rfl⟩
  · intro now alarms d
    simp [isAlarmActive, alarmMatch, List.any_eq_true, Bool.and_eq_true,
      Option.isNone_iff_eq_none]
  · intro s
    rfl

/-- C2: dismissal clearing happens once per tick before alarm evaluation
(the active flag of a tick is evaluated on the cleared state); a dismissal
whose (hour, minute) differs from the current local (hour, minute) is
cleared; a dismissal in the current minute forces the alarm inactive; and
in any other minute the dismissal has no effect on the evaluation, so it
never suppresses a later recurrence. -/
theorem dismissal_minute_scope :
    (∀ (now : NaiveTime) (alarms : List NaiveTime) (d : Option NaiveTime) (inp : InputSignal),
      (tickStep now alarms d inp).fst = isAlarmActive now alarms (clearStale now d)) ∧
    (∀ (now d : NaiveTime), (now.hour ≠ d.hour ∨ now.minute ≠ d.minute) →
      clearStale now (some d) = none) ∧
    (∀ (now : NaiveTime) (alarms : List NaiveTime) (d : NaiveTime),
      now.hour = d.hour → now.minute = d.minute →
      isAlarmActive now alarms (clearStale now (some d)) = false) ∧
    (∀ (now : NaiveTime) (alarms : List NaiveTime) (d : NaiveTime),
      (now.hour ≠ d.hour ∨ now.minute ≠ d.minute) →
      isAlarmActive now alarms (clearStale now (some d)) =
        isAlarmActive now alarms none) := by
  refine ⟨fun now alarms d inp => rfl, ?_, ?_, ?_⟩
  · intro now d h
    simp [clearStale, h]
  · intro now alarms d hh hm
    simp [clearStale, hh, hm, isAlarmActive]
  · intro now alarms d h
    simp [clearStale, h]

/-- Witness for dismissal_minute_scope at concrete inputs: a dismissal
recorded at 08:30 is cleared at 08:31:00, and suppresses the alarm at
08:30:20. -/
theorem dismissal_minute_scope_witness :
    clearStale ⟨8, 31, 0⟩ (some ⟨8, 30, 0⟩) = none ∧
    isAlarmActive ⟨8, 30, 20⟩ [⟨8, 30, 0⟩] (clearStale ⟨8, 30, 20⟩ (some ⟨8, 30, 0⟩)) = false :=
  ⟨dismissal_minute_scope.2.1 ⟨8, 31, 0⟩ ⟨8, 30, 0⟩ (Or.inr (by decide)),
   dismissal_minute_scope.2.2.1 ⟨8, 30, 20⟩ [⟨8, 30, 0⟩] ⟨8, 30, 0⟩ rfl rfl⟩

/-- C8 counterexample: at local time 08:31:00 with alarm set 08:30 (no
alarm active) and no outstanding dismissal, pressing dismiss leaves the
dismissal state `none`; contrary to the claim, it does not record the
current (hour, minute) 08:31. -/
theorem dismiss_inactive_counterexample :
    (tickStep ⟨8, 31, 0⟩ [⟨8, 30, 0⟩] none InputSignal.dismiss).snd = none ∧
    ¬ (tickStep ⟨8, 31, 0⟩ [⟨8, 30, 0⟩] none InputSignal.dismiss).snd = some ⟨8, 31, 0⟩ := by
  exact ⟨rfl, by decide⟩

/-- C8 amended: invoking the dismiss action while no alarm is active is a
complete no-op: the tick has exactly the same result as a tick with no
input at all, and the resulting dismissal state is just the cleared
previous state (nothing is recorded). -/
theorem dismiss_inactive_noop :
    ∀ (now : NaiveTime) (alarms : List NaiveTime) (d : Option NaiveTime),
      isAlarmActive now alarms (clearStale now d) = false →
      tickStep now alarms d InputSignal.dismiss = tickStep now alarms d InputSignal.noInput ∧
      (tickStep now alarms d InputSignal.dismiss).snd = clearStale now d := by
  intro now alarms d h
  constructor
  · simp [tickStep, h]
  · simp [tickStep, h]

/-- Witness for dismiss_inactive_noop: at 08:31:00 with alarm 08:30, the
dismiss keypress changes nothing. -/
theorem dismiss_inactive_noop_witness :
    tickStep ⟨8, 31, 0⟩ [⟨8, 30, 0⟩] none InputSignal.dismiss =
      tickStep ⟨8, 31, 0⟩ [⟨8, 30, 0⟩] none InputSignal.noInput :=
  (dismiss_inactive_noop ⟨8, 31, 0⟩ [⟨8, 30, 0⟩] none (by decide)).1

/-- Every unit produced by the render loop carries the single active flag
of the loop as its highlight. -/
theorem uiLoop_highlight (chunks : List Rect) (cols : Nat) (sample : Nat → Int)
    (active : Bool) :
    ∀ (cs : List Clock) (i : Nat) (u : RenderUnit),
      u ∈ uiLoop chunks cols sample active cs i → u.highlight = active := by
  intro cs
  induction cs with
  | nil =>
    intro i u h
    simp [uiLoop] at h
  | cons c rest ih =>
    intro i u h
    rw [uiLoop] at h
    split at h
    · split at h
      · rcases List.mem_cons.1 h with rfl | h2
        · rfl
        · exact ih (i + 1) u h2
      · simp at h
    · simp at h

/-- C7: the alarm highlight is one global flag: every render unit of a
frame carries highlight equal to the active flag of the frame,
irrespective of the zone-local time of that clock; so when the alarm is active all clocks
highlight, and when it is not none do. -/
theorem highlight_global :
    ∀ (canvas : Rect) (clocks : List Clock) (sample : Nat → Int) (active : Bool)
      (u : RenderUnit), u ∈ uiRender canvas clocks sample active → u.highlight = active := by
  intro canvas clocks sample active u hu
  unfold uiRender at hu
  split at hu
  · simp at hu
  · exact uiLoop_highlight _ _ _ _ clocks 0 u hu

/-- Witness for highlight_global: the single unit of a one-clock frame
with the alarm active is highlighted. -/
theorem highlight_global_witness :
    ((uiRender ⟨0, 0, 20, 10⟩ [⟨"A", 0⟩] (fun _ => 0) true).getD 0 default).highlight = true :=
  highlight_global ⟨0, 0, 20, 10⟩ [⟨"A", 0⟩] (fun _ => 0) true _ (by decide)

/-- C3 counterexample: two clocks of the same fixed-offset zone rendered
in one frame over the instant stream 0, 60, 120, ... seconds show the
times 00:00:00 and 00:01:00: no single shared instant converts to both,
because the code samples `Utc::now()` anew for every clock inside the
per-frame loop. -/
theorem shared_instant_counterexample :
    ¬ ∃ t : Int, ∀ u ∈ uiRender ⟨0, 0, 20, 10⟩ [⟨"A", 0⟩, ⟨"B", 0⟩]
        (fun k => 60 * (k : Int)) false,
      u.timeSec = zoneSecondsOfDay t 0 ∧ u.dateDay = zoneDay t 0 := by
  intro ⟨t, h⟩
  have hA := h ⟨⟨0, 0, 10, 10⟩, "A", 0, 0, false⟩ (by decide)
  have hB := h ⟨⟨10, 0, 10, 10⟩, "B", 60, 0, false⟩ (by decide)
  have h1 : (0 : Int) = zoneSecondsOfDay t 0 := by simpa using hA.1
  have h2 : (60 : Int) = zoneSecondsOfDay t 0 := by simpa using hB.1
  rw [← h1] at h2
  exact absurd h2 (by decide)

/-- The render-loop unit at offset j is built from clock j of the
remaining list and the sample of its own loop iteration. -/
theorem uiLoop_getD (chunks : List Rect) (cols : Nat) (sample : Nat → Int)
    (active : Bool) (hc : 0 < cols) :
    ∀ (cs : List Clock) (i j : Nat), j < cs.length →
      (∀ m, m < cs.length → (i + m) / cols < chunks.length) →
      (uiLoop chunks cols sample active cs i).getD j default =
        ⟨cellAt chunks cols (i + j), (cs.getD j default).name,
         zoneSecondsOfDay (sample (i + j)) ((cs.getD j default).timezone),
         zoneDay (sample (i + j)) ((cs.getD j default).timezone), active⟩ := by
  intro cs
  induction cs with
  | nil =>
    intro i j hj _
    simp at hj
  | cons c rest ih =>
    intro i j hj hall
    have h0 : i / cols < chunks.length := by
      have := hall 0 (by simp)
      simpa using this
    have hm : i % cols < (splitHorz (chunks.get ⟨i / cols, h0⟩) cols).length := by
      rw [length_splitHorz]
      exact Nat.mod_lt _ hc
    rw [uiLoop, dif_pos h0, dif_pos hm]
    cases j with
    | zero =>
      have hcell : (splitHorz (chunks.get ⟨i / cols, h0⟩) cols).get ⟨i % cols, hm⟩ =
          cellAt chunks cols (i + 0) := by
        unfold cellAt
        rw [Nat.add_zero, getD_of_lt chunks default h0,
          getD_of_lt _ default (by rw [length_splitHorz]; exact Nat.mod_lt _ hc)]
      rw [List.getD_cons_zero, hcell]
      simp
    | succ j0 =>
      have hall2 : ∀ m, m < rest.length → (i + 1 + m) / cols < chunks.length := by
        intro m hmr
        have e : i + 1 + m = i + (m + 1) := by omega
        rw [e]
        refine hall (m + 1) ?_
        simp only [List.length_cons]
        omega
      have hj0 : j0 < rest.length := by
        simp only [List.length_cons] at hj
        omega
      rw [List.getD_cons_succ, ih (i + 1) j0 hj0 hall2]
      have e : i + 1 + j0 = i + (j0 + 1) := by omega
      rw [e, List.getD_cons_succ]

/-- C3 amended: within one frame the time and date of each clock are
converted from the per-iteration wall-clock sample of that clock: the i-th render
unit shows the conversion of sample i under its own zone offset, so
clocks of the same frame may reflect distinct instants. -/
theorem ui_per_clock_sampling :
    ∀ (canvas : Rect) (clocks : List Clock) (sample : Nat → Int) (active : Bool)
      (i : Nat), i < clocks.length →
      ((uiRender canvas clocks sample active).getD i default).timeSec =
        zoneSecondsOfDay (sample i) ((clocks.getD i default).timezone) ∧
      ((uiRender canvas clocks sample active).getD i default).dateDay =
        zoneDay (sample i) ((clocks.getD i default).timezone) ∧
      ((uiRender canvas clocks sample active).getD i default).label =
        (clocks.getD i default).name := by
  intro canvas clocks sample active i hi
  have h1 : 1 ≤ clocks.length := by omega
  have hc := gridCols_pos h1
  unfold uiRender
  rw [if_neg (by omega)]
  rw [uiLoop_getD _ _ _ _ hc clocks 0 i hi ?_]
  · refine ⟨?_, ?_, ?_⟩ <;> simp
  · intro m hm
    rw [length_splitVert, Nat.zero_add]
    exact index_div_lt_rows h1 hm

/-- Witness for ui_per_clock_sampling: the second clock of the
counterexample frame shows the conversion of the second sample, 60
seconds after midnight. -/
theorem ui_per_clock_sampling_witness :
    ((uiRender ⟨0, 0, 20, 10⟩ [⟨"A", 0⟩, ⟨"B", 0⟩] (fun k => 60 * (k : Int))
        false).getD 1 default).timeSec =
      zoneSecondsOfDay ((fun k : Nat => 60 * (k : Int)) 1)
        (([⟨"A", 0⟩, ⟨"B", 0⟩] : List Clock).getD 1 default).timezone :=
  (ui_per_clock_sampling ⟨0, 0, 20, 10⟩ [⟨"A", 0⟩, ⟨"B", 0⟩]
    (fun k => 60 * (k : Int)) false 1 (by decide)).1

/-- An unparsable string in the CLI alarm list makes the alarm loop
return its first diagnostic. -/
theorem parseAlarmsCLI_error (pa : String → Option NaiveTime) :
    ∀ l : List String, (∃ s, s ∈ l ∧ pa s = none) →
      ∃ msg, parseAlarmsCLI pa l = Except.error msg := by
  intro l
  induction l with
  | nil =>
    intro ⟨s, hs, _⟩
    simp at hs
  | cons a rest ih =>
    intro ⟨s, hs, hnone⟩
    cases hpa : pa a with
    | none => exact ⟨"Invalid alarm format: " ++ a, by simp [parseAlarmsCLI, hpa]⟩
    | some t =>
      rcases List.mem_cons.1 hs with rfl | hmem
      · rw [hpa] at hnone
        exact absurd hnone (by simp)
      · obtain ⟨msg, hmsg⟩ := ih ⟨s, hmem, hnone⟩
        exact ⟨msg, by simp [parseAlarmsCLI, hpa, hmsg, Except.map]⟩

/-- An unparsable identifier in the zone list makes the zone loop return
its first diagnostic. -/
theorem parseZonesList_error (pt : String → Option Int) :
    ∀ l : List String, (∃ s, s ∈ l ∧ pt s = none) →
      ∃ msg, parseZonesList pt l = Except.error msg := by
  intro l
  induction l with
  | nil =>
    intro ⟨s, hs, _⟩
    simp at hs
  | cons a rest ih =>
    intro ⟨s, hs, hnone⟩
    cases hpa : pt a with
    | none => exact ⟨"Invalid time zone: " ++ a, by simp [parseZonesList, hpa]⟩
    | some tz =>
      rcases List.mem_cons.1 hs with rfl | hmem
      · rw [hpa] at hnone
        exact absurd hnone (by simp)
      · obtain ⟨msg, hmsg⟩ := ih ⟨s, hmem, hnone⟩
        exact ⟨msg, by simp [parseZonesList, hpa, hmsg, Except.map]⟩

/-- C9: for every invalid HH:MM alarm string supplied on the command line
and for every invalid zone identifier among the zones the program
iterates, startup prints a diagnostic to standard error and returns
without entering the render cycle, with exit code 0. -/
theorem invalid_input_early_exit :
    ∀ (pa : String → Option NaiveTime) (pt : String → Option Int)
      (az aa sa sz : List String),
      ((∃ s, s ∈ aa ∧ pa s = none) ∨
        (∃ s, s ∈ effectiveZones az sz ∧ pt s = none)) →
      ∃ msg, mainStartup pa pt az aa sa sz = MainOutcome.earlyExit msg 0 := by
  intro pa pt az aa sa sz h
  rcases h with ⟨s, hs, hnone⟩ | hz
  · have haa : aa ≠ [] := by
      intro he
      subst he
      simp at hs
    obtain ⟨msg, hmsg⟩ := parseAlarmsCLI_error pa aa ⟨s, hs, hnone⟩
    refine ⟨msg, ?_⟩
    unfold mainStartup
    rw [if_pos haa, hmsg]
  · cases haa : (if aa ≠ [] then parseAlarmsCLI pa aa
        else Except.ok (sa.filterMap pa)) with
    | error msg =>
      refine ⟨msg, ?_⟩
      unfold mainStartup
      rw [haa]
    | ok alarms =>
      obtain ⟨msg, hmsg⟩ := parseZonesList_error pt _ hz
      refine ⟨msg, ?_⟩
      unfold mainStartup
      rw [haa, hmsg]

/-- Witness for invalid_input_early_exit: one unparsable CLI alarm string
makes startup exit early with code 0 and a diagnostic. -/
theorem invalid_input_early_exit_witness :
    ∃ msg, mainStartup (fun _ => none) (fun _ => some 0) [] ["badtime"] [] [] =
      MainOutcome.earlyExit msg 0 :=
  invalid_input_early_exit (fun _ => none) (fun _ => some 0) [] ["badtime"] [] []
    (Or.inl ⟨"badtime", by simp, rfl⟩)

/-- Every unit produced by the windowed view loop carries the single
active flag of the loop as its highlight. -/
theorem guiViewLoop_highlight (sample : Nat → Int) (active : Bool) :
    ∀ (cs : List Clock) (i : Nat) (u : GuiUnit),
      u ∈ guiViewLoop sample active cs i → u.highlight = active := by
  intro cs
  induction cs with
  | nil =>
    intro i u h
    simp [guiViewLoop] at h
  | cons c rest ih =>
    intro i u h
    rw [guiViewLoop] at h
    rcases List.mem_cons.1 h with rfl | h2
    · rfl
    · exact ih (i + 1) u h2

/-- C10: in the windowed variant the highlight equals the minute-granular
alarm match of the stored local time alone: the active flag of the view is
exactly the pure alarm match (equivalently, the terminal evaluation with
an empty dismissal), every rendered unit carries it, and the only state
transition merely stores a new local time, so the application holds no
dismissal and an active highlight can never be dismissed. -/
theorem gui_no_dismissal :
    (∀ app : WorldClockApp, guiIsAlarmActive app = alarmMatch app.local_time app.alarms) ∧
    (∀ app : WorldClockApp,
      guiIsAlarmActive app = isAlarmActive app.local_time app.alarms none) ∧
    (∀ (app : WorldClockApp) (sample : Nat → Int) (u : GuiUnit),
      u ∈ guiView app sample → u.highlight = alarmMatch app.local_time app.alarms) ∧
    (∀ (app : WorldClockApp) (m : GuiMessage),
      ∃ t, guiUpdate app m = ⟨app.clocks, app.alarms, t⟩) := by
  refine ⟨fun app => rfl, ?_, ?_, ?_⟩
  · intro app
    simp [guiIsAlarmActive, isAlarmActive, alarmMatch]
  · intro app sample u hu
    have h := guiViewLoop_highlight sample (guiIsAlarmActive app) app.clocks 0 u hu
    rw [h]
    rfl
  · intro app m
    cases m with
    | tick t => exact ⟨t, rfl⟩

/-- Witness for gui_no_dismissal: with one clock, alarm 08:30 and stored
local time 08:30:05, the single windowed unit is highlighted exactly per
the pure alarm match. -/
theorem gui_no_dismissal_witness :
    ((guiView ⟨[⟨"A", 0⟩], [⟨8, 30, 0⟩], ⟨8, 30, 5⟩⟩ (fun _ => 0)).getD 0
        default).highlight =
      alarmMatch (⟨8, 30, 5⟩ : NaiveTime) [⟨8, 30, 0⟩] :=
  gui_no_dismissal.2.2.1 ⟨[⟨"A", 0⟩], [⟨8, 30, 0⟩], ⟨8, 30, 5⟩⟩ (fun _ => 0) _
    (by decide)

end WorldClock
